import Mathlib

/-!
otredis: OpenTracing instrumentation of a go-redis client

A shallow embedding of `otredis.go` and a verification of its specification.

The file has six functions of its own (`WrapRedisClient`, `process`,
`processPipeline`, `formatCommandAsDbMethod`, `formatCommandsAsDbMethods`,
`configureSpanTags`); everything else it touches belongs to two libraries,
go-redis and opentracing-go.  The libraries are modelled by what they make
observable:

* the tracer by an append-only history of events (span started, tag set, span
  finished), from which the name, the references, the tags and the finish count
  of a span are read back;
* the client by a heap of client records addressed by references, a record
  holding a reference to its options, the bound context and the two replaceable
  hooks;
* the options by a memory of `redis.Options` structs addressed by references:
  a copy of a client shares the options of the original, and a field is read
  through the reference at the moment the source reads it.

A hook is a function with effects.  It is embedded as an `Action`: it reads the
history recorded so far and the state of everything that is not tracing (the
store: the options structs, and the rest: connections, server, results), and it
returns a value, the events it recorded, and the new store.  Events are
returned, not overwritten, so recorded history is never erased.  Two more
events, `call` and `done`, mark the places where the source calls the hook it
wraps; they make "the hook is called once, with this argument, between these
two moments" a statement about the history.
-/

namespace Otredis

/-! ## Carriers -/

/-- The part of `redis.Cmder` the package reads: `Name()`; the arguments ride along. -/
structure Cmder where
  Name : String
  Args : List String
  deriving DecidableEq, Repr

/-- How a Go call ends: it returns an `error` (`none` is `nil`) or it panics. -/
inductive Completion where
  | returned (err : Option String)
  | panicked (value : String)
  deriving DecidableEq, Repr

/-- An `opentracing.Tracer`, by identity. -/
abbrev Tracer := Nat

/-- An `opentracing.Span`: the tracer that made it and its identity. -/
structure Span where
  tracer : Tracer
  id : Nat
  deriving DecidableEq, Repr

/-- An `opentracing.SpanContext`: it identifies the span it was taken from. -/
structure SpanContext where
  spanId : Nat
  deriving DecidableEq, Repr

/-- The kinds of `opentracing.SpanReference`. -/
inductive RefType where
  | childOf
  | followsFrom
  deriving DecidableEq, Repr

/-- An `opentracing.SpanReference`. -/
structure SpanReference where
  type : RefType
  referenced : SpanContext
  deriving DecidableEq, Repr

/-- The argument of a hook call: one command, or a batch. -/
inductive HookArgs where
  | single (cmd : Cmder)
  | batch (cmds : List Cmder)
  deriving DecidableEq, Repr

/-- What is observable of a run. -/
inductive Event where
  | start (span : Span) (operationName : String) (references : List SpanReference)
  | setTag (span : Span) (key value : String)
  | finish (span : Span)
  | call (args : HookArgs)
  | done (result : Completion)
  deriving DecidableEq, Repr

/-- The span an event is about. -/
def Event.span? : Event → Option Span
  | .start s _ _ => some s
  | .setTag s _ _ => some s
  | .finish s => some s
  | .call _ => none
  | .done _ => none

/-- One more than the identity of the span the event is about; `0` when it is about none. -/
def Event.bound (e : Event) : Nat :=
  match e.span? with
  | some s => s.id + 1
  | none => 0

/-- The identity the tracer gives the next span: above every span the history mentions. -/
def nextSpanId (hist : List Event) : Nat :=
  hist.foldl (fun n e => max n e.bound) 0

/-! ## Actions -/

/-- The struct `redis.Options`: the address and some of the rest. -/
structure Options where
  Addr : String
  Network : String
  Password : String
  DB : Nat
  deriving DecidableEq, Repr

/-- A `*redis.Options`: the name of an options struct in the store. -/
abbrev OptionsRef := Nat

/-- The store: the options structs, by reference, and everything else that is not tracing. -/
structure Memory (σ : Type) where
  options : OptionsRef → Options
  rest : σ

/-- The result of running an action. -/
structure Outcome (σ α : Type) where
  val : α
  events : List Event
  store : Memory σ

/-- A computation with effects: from the history so far and the store to an outcome. -/
def Action (σ α : Type) : Type := List Event → Memory σ → Outcome σ α

/-- Sequencing: the second action sees the history extended by the events of the first. -/
def Action.bind {σ α β : Type} (m : Action σ α) (f : α → Action σ β) : Action σ β :=
  fun hist st =>
    let r := m hist st
    let r2 := f r.val (hist ++ r.events) r.store
    ⟨r2.val, r.events ++ r2.events, r2.store⟩

/-- The action that does nothing and yields `a`. -/
def Action.pure {σ α : Type} (a : α) : Action σ α :=
  fun _ st => ⟨a, [], st⟩

instance {σ : Type} : Monad (Action σ) where
  pure := Action.pure
  bind := Action.bind

/-- Record one event. -/
def emit {σ : Type} (e : Event) : Action σ Unit :=
  fun _ st => ⟨(), [e], st⟩

/-- The read of the struct behind an options pointer, as in `opts.Addr`. -/
def readOptions {σ : Type} (opts : OptionsRef) : Action σ Options :=
  fun _ st => ⟨st.options opts, [], st⟩

/-- The assignment `opts.Addr = addr` through an options pointer. -/
def setAddr {σ : Type} (opts : OptionsRef) (addr : String) : Action σ Unit :=
  fun _ st =>
    ⟨(), [], { st with options := fun r =>
      if r = opts then { st.options r with Addr := addr } else st.options r }⟩

/-- The hook type `func(cmd redis.Cmder) error`. -/
abbrev ProcessHook (σ : Type) : Type := Cmder → Action σ Completion

/-- The hook type `func(cmds []redis.Cmder) error`. -/
abbrev PipelineHook (σ : Type) : Type := List Cmder → Action σ Completion

/-! ## opentracing-go, as far as the package uses it -/

/-- The method `Span.Tracer()`. -/
def Span.Tracer (s : Span) : Tracer := s.tracer

/-- The method `Span.Context()`. -/
def Span.Context (s : Span) : SpanContext := ⟨s.id⟩

/-- The start option `opentracing.ChildOf(ctx)`: a child-of reference to `ctx`. -/
def ChildOf (ctx : SpanContext) : SpanReference := ⟨RefType.childOf, ctx⟩

/-- The method `Tracer.StartSpan(operationName, opts...)`: a new span, distinct from all in the history. -/
def StartSpan {σ : Type} (tracer : Tracer) (operationName : String)
    (opts : List SpanReference) : Action σ Span :=
  fun hist st =>
    let span : Span := ⟨tracer, nextSpanId hist⟩
    ⟨span, [Event.start span operationName opts], st⟩

/-- The method `Span.SetTag(key, value)`. -/
def Span.SetTag {σ : Type} (span : Span) (key value : String) : Action σ Unit :=
  emit (Event.setTag span key value)

/-- The method `Span.Finish()`. -/
def Span.Finish {σ : Type} (span : Span) : Action σ Unit :=
  emit (Event.finish span)

/-- The tag name `ext.DBType`. -/
def ext.DBType : String := "db.type"

/-- The tag name `ext.PeerAddress`. -/
def ext.PeerAddress : String := "peer.address"

/-- The tag name `ext.SpanKind`. -/
def ext.SpanKind : String := "span.kind"

/-- The conversion `ext.SpanKindEnum(s)`, a string type. -/
def ext.SpanKindEnum (s : String) : String := s

/-- The `Set` method of the `ext` tag names: `span.SetTag(string(tag), value)`. -/
def ext.Set {σ : Type} (tag : String) (span : Span) (value : String) : Action σ Unit :=
  span.SetTag tag value

/-- A `context.Context`, by identity, with the span stored in it, if any. -/
structure Context where
  id : Nat
  activeSpan : Option Span
  deriving DecidableEq, Repr

/-- The function `opentracing.SpanFromContext(ctx)`; `none` is a `nil` span. -/
def SpanFromContext (ctx : Context) : Option Span := ctx.activeSpan

/-! ## go-redis, as far as the package uses it -/

/-- The struct `redis.Client`: the pointer to its options, the bound context (`none` is
`nil`), and the two hooks. -/
structure Client (σ : Type) where
  opt : OptionsRef
  ctx : Option Context
  process : ProcessHook σ
  processPipeline : PipelineHook σ

/-- A `*redis.Client`: a position in the heap. -/
abbrev ClientRef := Nat

/-- The clients allocated so far. -/
abbrev Heap (σ : Type) : Type := List (Client σ)

/-- The method `Client.WithContext(ctx)`: a copy of the client, bound to `ctx`, at a new
reference; the copy holds the same options pointer.  `none` is the panic of dereferencing a
pointer that points to no client. -/
def WithContext {σ : Type} (c : ClientRef) (ctx : Context) (heap : Heap σ) :
    Option (ClientRef × Heap σ) :=
  match heap[c]? with
  | none => none
  | some cl => some (heap.length, heap ++ [{ cl with ctx := some ctx }])

/-- The method `Client.Options()`: the options pointer of the client, not a copy of the
struct. -/
def ClientOptions {σ : Type} (c : ClientRef) (heap : Heap σ) : Option OptionsRef :=
  (heap[c]?).map (fun cl => cl.opt)

/-- The method `Client.WrapProcess(fn)`: `c.process = fn(c.process)`. -/
def WrapProcess {σ : Type} (c : ClientRef) (fn : ProcessHook σ → ProcessHook σ)
    (heap : Heap σ) : Option (Heap σ) :=
  match heap[c]? with
  | none => none
  | some cl => some (heap.set c { cl with process := fn cl.process })

/-- The method `Client.WrapProcessPipeline(fn)`: `c.processPipeline = fn(c.processPipeline)`. -/
def WrapProcessPipeline {σ : Type} (c : ClientRef) (fn : PipelineHook σ → PipelineHook σ)
    (heap : Heap σ) : Option (Heap σ) :=
  match heap[c]? with
  | none => none
  | some cl => some (heap.set c { cl with processPipeline := fn cl.processPipeline })

/-- The method `Client.Process(cmd)`: run the command hook of the client. -/
def ClientProcess {σ : Type} (c : ClientRef) (heap : Heap σ) (cmd : Cmder) :
    Option (Action σ Completion) :=
  (heap[c]?).map (fun cl => cl.process cmd)

/-- The batch dispatch of a client (the exec of a pipeline): run its pipeline hook. -/
def ClientProcessPipeline {σ : Type} (c : ClientRef) (heap : Heap σ) (cmds : List Cmder) :
    Option (Action σ Completion) :=
  (heap[c]?).map (fun cl => cl.processPipeline cmds)

/-- The function `strings.Join(elems, sep)`. -/
def stringsJoin (elems : List String) (sep : String) : String :=
  match elems with
  | [] => ""
  | [e] => e
  | e :: rest => rest.foldl (fun b s => b ++ sep ++ s) e

/-! ## The calls of a wrapped hook -/

/-- The call `oldProcess(cmd)`: the call and its completion are recorded around it. -/
def callProcess {σ : Type} (oldProcess : ProcessHook σ) (cmd : Cmder) : Action σ Completion := do
  emit (Event.call (HookArgs.single cmd))
  let r ← oldProcess cmd
  emit (Event.done r)
  pure r

/-- The call `oldProcess(cmds)`: the call and its completion are recorded around it. -/
def callPipeline {σ : Type} (oldProcess : PipelineHook σ) (cmds : List Cmder) :
    Action σ Completion := do
  emit (Event.call (HookArgs.batch cmds))
  let r ← oldProcess cmds
  emit (Event.done r)
  pure r

/-! ## otredis.go -/

/-- The function `formatCommandAsDbMethod`. -/
def formatCommandAsDbMethod (cmd : Cmder) : String :=
  cmd.Name

/-- The loop of `formatCommandsAsDbMethods`: `cmdsAsDbMethods[i] = dbMethod` for each
`i, cmd` of the range, from position `i` on. -/
def fillDbMethods (cmdsAsDbMethods : List String) (i : Nat) : List Cmder → List String
  | [] => cmdsAsDbMethods
  | cmd :: rest =>
    let dbMethod := formatCommandAsDbMethod cmd
    fillDbMethods (cmdsAsDbMethods.set i dbMethod) (i + 1) rest

/-- The function `formatCommandsAsDbMethods`. -/
def formatCommandsAsDbMethods (cmds : List Cmder) : String :=
  let cmdsAsDbMethods := List.replicate cmds.length ""
  let cmdsAsDbMethods := fillDbMethods cmdsAsDbMethods 0 cmds
  stringsJoin cmdsAsDbMethods " -> "

/-- The function `configureSpanTags`; `opts.Addr` is read through the pointer when the
second tag is set. -/
def configureSpanTags {σ : Type} (span : Span) (opts : OptionsRef) (dbMethod : String) :
    Action σ Unit := do
  ext.Set ext.DBType span "redis"
  let o ← readOptions opts
  ext.Set ext.PeerAddress span o.Addr
  ext.Set ext.SpanKind span (ext.SpanKindEnum "client")
  span.SetTag "db.method" dbMethod

/-- The function `process`.  The deferred `span.Finish()` runs when the body is left, by
return or by panic, so it follows the call of `oldProcess` on both paths. -/
def process {σ : Type} (parentSpan : Span) (opts : OptionsRef) (oldProcess : ProcessHook σ) :
    ProcessHook σ :=
  fun cmd => do
    let tracer := parentSpan.Tracer
    let span ← StartSpan tracer "redis-cmd" [ChildOf parentSpan.Context]
    let dbMethod := formatCommandAsDbMethod cmd
    configureSpanTags span opts dbMethod
    let r ← callProcess oldProcess cmd
    span.Finish
    pure r

/-- The function `processPipeline`, with the same deferred `span.Finish()`. -/
def processPipeline {σ : Type} (parentSpan : Span) (opts : OptionsRef)
    (oldProcess : PipelineHook σ) : PipelineHook σ :=
  fun cmds => do
    let tracer := parentSpan.Tracer
    let span ← StartSpan tracer "redis-pipeline-cmd" [ChildOf parentSpan.Context]
    let dbMethod := formatCommandsAsDbMethods cmds
    configureSpanTags span opts dbMethod
    let r ← callPipeline oldProcess cmds
    span.Finish
    pure r

/-- The function `WrapRedisClient`; `ctx = none` is the `nil` context.  `none` as a result
is the panic of a `client` that points to no client. -/
def WrapRedisClient {σ : Type} (ctx : Option Context) (client : ClientRef) (heap : Heap σ) :
    Option (ClientRef × Heap σ) :=
  match ctx with
  | none => some (client, heap)
  | some ctx =>
    match SpanFromContext ctx with
    | none => some (client, heap)
    | some parentSpan =>
      match WithContext client ctx heap with
      | none => none
      | some (ctxClient, heap) =>
        match ClientOptions ctxClient heap with
        | none => none
        | some opts =>
          match WrapProcess ctxClient (process parentSpan opts) heap with
          | none => none
          | some heap =>
            match WrapProcessPipeline ctxClient (processPipeline parentSpan opts) heap with
            | none => none
            | some heap => some (ctxClient, heap)

/-! ## Reading the history -/

/-- The operation name the span was started with. -/
def spanName (log : List Event) (s : Span) : Option String :=
  log.findSome? fun e =>
    match e with
    | .start s2 name _ => if s2 = s then some name else none
    | _ => none

/-- The references the span was started with. -/
def spanRefs (log : List Event) (s : Span) : Option (List SpanReference) :=
  log.findSome? fun e =>
    match e with
    | .start s2 _ refs => if s2 = s then some refs else none
    | _ => none

/-- The value `SetTag` gave the tag, if any. -/
def tagSetBy (s : Span) (key : String) : Event → Option String
  | .setTag s2 k v => if s2 = s ∧ k = key then some v else none
  | _ => none

/-- The value of a tag of the span: the one set last. -/
def tagOf (log : List Event) (s : Span) (key : String) : Option String :=
  log.reverse.findSome? (tagSetBy s key)

/-- How many times the tag of the span was set. -/
def tagSets (log : List Event) (s : Span) (key : String) : Nat :=
  log.countP fun e => (tagSetBy s key e).isSome

/-- The spans started, in order. -/
def startedSpans (log : List Event) : List Span :=
  log.filterMap fun e =>
    match e with
    | .start s _ _ => some s
    | _ => none

/-- The spans finished, in order. -/
def finishedSpans (log : List Event) : List Span :=
  log.filterMap fun e =>
    match e with
    | .finish s => some s
    | _ => none

/-- The hook calls made, in order. -/
def hookCalls (log : List Event) : List HookArgs :=
  log.filterMap fun e =>
    match e with
    | .call a => some a
    | _ => none

/-- A hook that records events only about spans started after it was entered. -/
def OwnSpansOnly {σ α : Type} (H : α → Action σ Completion) : Prop :=
  ∀ (a : α) (hist : List Event) (st : Memory σ) (e : Event) (s : Span),
    e ∈ (H a hist st).events → e.span? = some s → nextSpanId hist ≤ s.id

/-- The events an interceptor records before it enters the hook it wraps, `opts` being the
options struct as the interceptor finds it. -/
def entryEvents (s : Span) (operationName : String) (parent : Span) (opts : Options)
    (dbMethod : String) (args : HookArgs) : List Event :=
  [Event.start s operationName [ChildOf parent.Context],
   Event.setTag s "db.type" "redis",
   Event.setTag s "peer.address" opts.Addr,
   Event.setTag s "span.kind" "client",
   Event.setTag s "db.method" dbMethod,
   Event.call args]

/-- The events the command interceptor records before it enters the hook it wraps. -/
def processEntry (P : Span) (opts : Options) (cmd : Cmder) (hist : List Event) : List Event :=
  entryEvents ⟨P.tracer, nextSpanId hist⟩ "redis-cmd" P opts cmd.Name (HookArgs.single cmd)

/-- The events the pipeline interceptor records before it enters the hook it wraps. -/
def pipelineEntry (P : Span) (opts : Options) (cmds : List Cmder) (hist : List Event) :
    List Event :=
  entryEvents ⟨P.tracer, nextSpanId hist⟩ "redis-pipeline-cmd" P opts
    (formatCommandsAsDbMethods cmds) (HookArgs.batch cmds)

/-- A hook that records nothing, leaves the store alone and returns `nil`. -/
def quietHook {σ α : Type} : α → Action σ Completion :=
  fun _ _ st => ⟨Completion.returned none, [], st⟩

/-- A hook that records nothing, leaves the store alone and returns an error. -/
def failingHook {σ α : Type} : α → Action σ Completion :=
  fun _ _ st => ⟨Completion.returned (some "connection refused"), [], st⟩

/-- A caller: wrap the client, then dispatch one command through the handle returned. -/
def viaWrapped {σ : Type} (ctx : Option Context) (C : ClientRef) (heap : Heap σ) (cmd : Cmder)
    (hist : List Event) (st : Memory σ) : Option (Outcome σ Completion) :=
  match WrapRedisClient ctx C heap with
  | none => none
  | some (c1, heap1) =>
    match ClientProcess c1 heap1 cmd with
    | none => none
    | some run => some (run hist st)

/-- A caller: wrap the client, wrap the handle returned with the same context, then dispatch
one command through the second handle. -/
def viaWrappedTwice {σ : Type} (ctx : Option Context) (C : ClientRef) (heap : Heap σ)
    (cmd : Cmder) (hist : List Event) (st : Memory σ) : Option (Outcome σ Completion) :=
  match WrapRedisClient ctx C heap with
  | none => none
  | some (c1, heap1) => viaWrapped ctx c1 heap1 cmd hist st

/-- A caller: wrap the client, do something else (`between`), then dispatch one command
through the handle returned. -/
def viaWrappedLater {σ : Type} (ctx : Option Context) (C : ClientRef) (heap : Heap σ)
    (between : Action σ Unit) (cmd : Cmder) (hist : List Event) (st : Memory σ) :
    Option (Outcome σ Completion) :=
  match WrapRedisClient ctx C heap with
  | none => none
  | some (c1, heap1) =>
    match ClientProcess c1 heap1 cmd with
    | none => none
    | some run => some (run (hist ++ (between hist st).events) (between hist st).store)

/-- The four tags of the span, each set once, with the values `configureSpanTags` gives. -/
def TaggedOnce (log : List Event) (s : Span) (addr dbMethod : String) : Prop :=
  (tagOf log s "db.type" = some "redis" ∧ tagSets log s "db.type" = 1)
  ∧ (tagOf log s "peer.address" = some addr ∧ tagSets log s "peer.address" = 1)
  ∧ (tagOf log s "span.kind" = some "client" ∧ tagSets log s "span.kind" = 1)
  ∧ (tagOf log s "db.method" = some dbMethod ∧ tagSets log s "db.method" = 1)

/-- The names joined by the separator, as the specification words it: each name, in order,
the separator between two neighbours. -/
def joinedBy (sep : String) : List String → String
  | [] => ""
  | [a] => a
  | a :: b :: rest => a ++ sep ++ joinedBy sep (b :: rest)

/-- No event of the list is about the span. -/
def Silent (l : List Event) (s : Span) : Prop :=
  ∀ e ∈ l, e.span? ≠ some s

/-- The events of one intercepted dispatch: entry, the events of the hook, completion, finish. -/
def bracket (s : Span) (operationName : String) (parent : Span) (opts : Options)
    (dbMethod : String) (args : HookArgs) (inner : List Event) (result : Completion) :
    List Event :=
  entryEvents s operationName parent opts dbMethod args
    ++ inner ++ [Event.done result, Event.finish s]

/-! ## A small world to run things in -/

/-- A parent span. -/
def demoParent : Span := ⟨1, 0⟩

/-- A context that carries the parent span. -/
def demoContext : Context := ⟨1, some demoParent⟩

/-- A context that carries no span. -/
def bareContext : Context := ⟨2, none⟩

/-- The options of the client. -/
def demoOptions : Options := ⟨"localhost:6379", "tcp", "", 0⟩

/-- A store in which every options pointer leads to those options. -/
def demoMemory : Memory Unit := ⟨fun _ => demoOptions, ()⟩

/-- A client with hooks that record nothing; its options are behind pointer `0`. -/
def demoClient : Client Unit := ⟨0, none, quietHook, quietHook⟩

/-- A client with hooks that fail; its options are behind pointer `0`. -/
def downClient : Client Unit := ⟨0, none, failingHook, failingHook⟩

/-- The history in which the parent span was started. -/
def demoHistory : List Event := [Event.start demoParent "request" []]

/-- The command `GET key`. -/
def demoGet : Cmder := ⟨"GET", ["key"]⟩

/-- The batch `SET`, `EXPIRE`, `GET`. -/
def demoBatch : List Cmder :=
  [⟨"SET", ["key", "value"]⟩, ⟨"EXPIRE", ["key", "60"]⟩, ⟨"GET", ["key"]⟩]

/-! ## The next span identity -/

theorem foldl_bound_le (l : List Event) (n : Nat) :
    n ≤ l.foldl (fun n e => max n e.bound) n := by
  induction l generalizing n with
  | nil => simp
  | cons e l ih =>
    simp only [List.foldl_cons]
    exact le_trans (le_max_left n e.bound) (ih _)

theorem bound_le_foldl (l : List Event) (n : Nat) (e : Event) (he : e ∈ l) :
    e.bound ≤ l.foldl (fun n e => max n e.bound) n := by
  induction l generalizing n with
  | nil => simp at he
  | cons x l ih =>
    simp only [List.foldl_cons]
    rcases List.mem_cons.mp he with h | h
    · subst h
      exact le_trans (le_max_right n e.bound) (foldl_bound_le l _)
    · exact ih _ h

theorem lt_nextSpanId (hist : List Event) (e : Event) (s : Span) (he : e ∈ hist)
    (hs : e.span? = some s) : s.id < nextSpanId hist := by
  have h := bound_le_foldl hist 0 e he
  simp only [Event.bound, hs] at h
  exact h

theorem nextSpanId_append_entry (hist : List Event) (t : Tracer) (name : String) (P : Span)
    (opts : Options) (dbMethod : String) (args : HookArgs) :
    nextSpanId (hist ++ entryEvents ⟨t, nextSpanId hist⟩ name P opts dbMethod args)
      = nextSpanId hist + 1 := by
  simp [nextSpanId, entryEvents, List.foldl_append, Event.bound, Event.span?]

/-! ## Events about a span -/

theorem silent_history (hist : List Event) (t : Tracer) :
    Silent hist ⟨t, nextSpanId hist⟩ := by
  intro e he hs
  have h := lt_nextSpanId hist e _ he hs
  simp at h

theorem silent_hook {σ α : Type} (H : α → Action σ Completion) (hH : OwnSpansOnly H) (a : α)
    (hist : List Event) (st : Memory σ) (s : Span) (hs : s.id < nextSpanId hist) :
    Silent (H a hist st).events s := by
  intro e he hes
  have h := hH a hist st e s he hes
  omega

theorem spanName_silent (l : List Event) (s : Span) (h : Silent l s) : spanName l s = none := by
  unfold spanName
  rw [List.findSome?_eq_none_iff]
  intro e he
  cases e with
  | start s2 name refs =>
    have := h _ he
    simp only [Event.span?, ne_eq, Option.some.injEq] at this
    simp [this]
  | _ => rfl

theorem spanRefs_silent (l : List Event) (s : Span) (h : Silent l s) : spanRefs l s = none := by
  unfold spanRefs
  rw [List.findSome?_eq_none_iff]
  intro e he
  cases e with
  | start s2 name refs =>
    have := h _ he
    simp only [Event.span?, ne_eq, Option.some.injEq] at this
    simp [this]
  | _ => rfl

theorem tagSetBy_silent (l : List Event) (s : Span) (key : String) (h : Silent l s) :
    ∀ e ∈ l, tagSetBy s key e = none := by
  intro e he
  cases e with
  | setTag s2 k v =>
    have := h _ he
    simp only [Event.span?, ne_eq, Option.some.injEq] at this
    simp [tagSetBy, this]
  | _ => rfl

theorem tagOf_silent (l : List Event) (s : Span) (key : String) (h : Silent l s) :
    tagOf l s key = none := by
  unfold tagOf
  rw [List.findSome?_eq_none_iff]
  intro e he
  exact tagSetBy_silent l s key h e (List.mem_reverse.mp he)

theorem tagSets_silent (l : List Event) (s : Span) (key : String) (h : Silent l s) :
    tagSets l s key = 0 := by
  unfold tagSets
  rw [List.countP_eq_zero]
  intro e he
  simp [tagSetBy_silent l s key h e he]

theorem startedSpans_silent (l : List Event) (s : Span) (h : Silent l s) :
    (startedSpans l).count s = 0 := by
  rw [List.count_eq_zero]
  unfold startedSpans
  rw [List.mem_filterMap]
  rintro ⟨e, he, hes⟩
  cases e with
  | start s2 name refs =>
    simp only [Option.some.injEq] at hes
    exact h _ he (by simp [Event.span?, hes])
  | _ => simp at hes

theorem finishedSpans_silent (l : List Event) (s : Span) (h : Silent l s) :
    (finishedSpans l).count s = 0 := by
  rw [List.count_eq_zero]
  unfold finishedSpans
  rw [List.mem_filterMap]
  rintro ⟨e, he, hes⟩
  cases e with
  | finish s2 =>
    simp only [Option.some.injEq] at hes
    exact h _ he (by simp [Event.span?, hes])
  | _ => simp at hes

theorem tagOf_append (a b : List Event) (s : Span) (key : String) :
    tagOf (a ++ b) s key = (tagOf b s key).or (tagOf a s key) := by
  simp [tagOf, List.findSome?_append]

theorem tagSets_append (a b : List Event) (s : Span) (key : String) :
    tagSets (a ++ b) s key = tagSets a s key + tagSets b s key := by
  simp [tagSets]

theorem spanName_append (a b : List Event) (s : Span) :
    spanName (a ++ b) s = (spanName a s).or (spanName b s) := by
  simp [spanName, List.findSome?_append]

theorem spanRefs_append (a b : List Event) (s : Span) :
    spanRefs (a ++ b) s = (spanRefs a s).or (spanRefs b s) := by
  simp [spanRefs, List.findSome?_append]

theorem startedSpans_append (a b : List Event) :
    startedSpans (a ++ b) = startedSpans a ++ startedSpans b := by
  simp [startedSpans]

theorem finishedSpans_append (a b : List Event) :
    finishedSpans (a ++ b) = finishedSpans a ++ finishedSpans b := by
  simp [finishedSpans]

theorem hookCalls_append (a b : List Event) :
    hookCalls (a ++ b) = hookCalls a ++ hookCalls b := by
  simp [hookCalls]

/-! ## The shape of an intercepted dispatch -/

theorem bracket_spanName (hist inner : List Event) (s : Span) (name : String) (P : Span)
    (opts : Options) (dbMethod : String) (args : HookArgs) (r : Completion)
    (h1 : Silent hist s) :
    spanName (hist ++ bracket s name P opts dbMethod args inner r) s = some name := by
  rw [spanName_append, spanName_silent hist s h1]
  simp [bracket, entryEvents, spanName]

theorem bracket_spanRefs (hist inner : List Event) (s : Span) (name : String) (P : Span)
    (opts : Options) (dbMethod : String) (args : HookArgs) (r : Completion)
    (h1 : Silent hist s) :
    spanRefs (hist ++ bracket s name P opts dbMethod args inner r) s
      = some [ChildOf P.Context] := by
  rw [spanRefs_append, spanRefs_silent hist s h1]
  simp [bracket, entryEvents, spanRefs]

theorem bracket_tagOf (hist inner : List Event) (s : Span) (name : String) (P : Span)
    (opts : Options) (dbMethod : String) (args : HookArgs) (r : Completion)
    (h2 : Silent inner s) :
    tagOf (hist ++ bracket s name P opts dbMethod args inner r) s "db.type" = some "redis"
    ∧ tagOf (hist ++ bracket s name P opts dbMethod args inner r) s "peer.address"
        = some opts.Addr
    ∧ tagOf (hist ++ bracket s name P opts dbMethod args inner r) s "span.kind" = some "client"
    ∧ tagOf (hist ++ bracket s name P opts dbMethod args inner r) s "db.method"
        = some dbMethod := by
  simp only [bracket, tagOf_append, tagOf_silent inner s _ h2]
  simp [entryEvents, tagOf, tagSetBy]

theorem bracket_tagSets (hist inner : List Event) (s : Span) (name : String) (P : Span)
    (opts : Options) (dbMethod : String) (args : HookArgs) (r : Completion)
    (h1 : Silent hist s) (h2 : Silent inner s) :
    tagSets (hist ++ bracket s name P opts dbMethod args inner r) s "db.type" = 1
    ∧ tagSets (hist ++ bracket s name P opts dbMethod args inner r) s "peer.address" = 1
    ∧ tagSets (hist ++ bracket s name P opts dbMethod args inner r) s "span.kind" = 1
    ∧ tagSets (hist ++ bracket s name P opts dbMethod args inner r) s "db.method" = 1 := by
  simp only [bracket, tagSets_append, tagSets_silent inner s _ h2, tagSets_silent hist s _ h1]
  simp [entryEvents, tagSets, tagSetBy, List.countP_cons]

theorem bracket_started (hist inner : List Event) (s : Span) (name : String) (P : Span)
    (opts : Options) (dbMethod : String) (args : HookArgs) (r : Completion)
    (h1 : Silent hist s) (h2 : Silent inner s) :
    (startedSpans (hist ++ bracket s name P opts dbMethod args inner r)).count s = 1 := by
  simp only [bracket, startedSpans_append, List.count_append, startedSpans_silent inner s h2,
    startedSpans_silent hist s h1]
  simp [entryEvents, startedSpans]

theorem bracket_finished (hist inner : List Event) (s : Span) (name : String) (P : Span)
    (opts : Options) (dbMethod : String) (args : HookArgs) (r : Completion)
    (h1 : Silent hist s) (h2 : Silent inner s) :
    (finishedSpans (hist ++ bracket s name P opts dbMethod args inner r)).count s = 1 := by
  simp only [bracket, finishedSpans_append, List.count_append, finishedSpans_silent inner s h2,
    finishedSpans_silent hist s h1]
  simp [entryEvents, finishedSpans]

theorem bracket_startedSpans (inner : List Event) (s : Span) (name : String) (P : Span)
    (opts : Options) (dbMethod : String) (args : HookArgs) (r : Completion) :
    startedSpans (bracket s name P opts dbMethod args inner r) = s :: startedSpans inner := by
  simp [bracket, entryEvents, startedSpans]

theorem bracket_finishedSpans (inner : List Event) (s : Span) (name : String) (P : Span)
    (opts : Options) (dbMethod : String) (args : HookArgs) (r : Completion) :
    finishedSpans (bracket s name P opts dbMethod args inner r) = finishedSpans inner ++ [s] := by
  simp [bracket, entryEvents, finishedSpans]

theorem bracket_hookCalls (inner : List Event) (s : Span) (name : String) (P : Span)
    (opts : Options) (dbMethod : String) (args : HookArgs) (r : Completion) :
    hookCalls (bracket s name P opts dbMethod args inner r) = args :: hookCalls inner := by
  simp [bracket, entryEvents, hookCalls]

/-! ## Runs of the interceptors -/

theorem process_run {σ : Type} (P : Span) (opts : OptionsRef) (H : ProcessHook σ) (cmd : Cmder)
    (hist : List Event) (st : Memory σ) :
    process P opts H cmd hist st =
      ⟨(H cmd (hist ++ processEntry P (st.options opts) cmd hist) st).val,
       bracket ⟨P.tracer, nextSpanId hist⟩ "redis-cmd" P (st.options opts) cmd.Name (HookArgs.single cmd)
         (H cmd (hist ++ processEntry P (st.options opts) cmd hist) st).events
         (H cmd (hist ++ processEntry P (st.options opts) cmd hist) st).val,
       (H cmd (hist ++ processEntry P (st.options opts) cmd hist) st).store⟩ := by
  simp [process, callProcess, configureSpanTags, StartSpan, Span.SetTag, Span.Finish, ext.Set,
    emit, entryEvents, bind, Action.bind, pure, Action.pure, Span.Tracer, formatCommandAsDbMethod,
    ext.DBType, ext.PeerAddress, ext.SpanKind, ext.SpanKindEnum, readOptions, processEntry, bracket]

theorem processPipeline_run {σ : Type} (P : Span) (opts : OptionsRef) (H : PipelineHook σ)
    (cmds : List Cmder) (hist : List Event) (st : Memory σ) :
    processPipeline P opts H cmds hist st =
      ⟨(H cmds (hist ++ pipelineEntry P (st.options opts) cmds hist) st).val,
       bracket ⟨P.tracer, nextSpanId hist⟩ "redis-pipeline-cmd" P (st.options opts)
         (formatCommandsAsDbMethods cmds) (HookArgs.batch cmds)
         (H cmds (hist ++ pipelineEntry P (st.options opts) cmds hist) st).events
         (H cmds (hist ++ pipelineEntry P (st.options opts) cmds hist) st).val,
       (H cmds (hist ++ pipelineEntry P (st.options opts) cmds hist) st).store⟩ := by
  simp [processPipeline, callPipeline, configureSpanTags, StartSpan, Span.SetTag, Span.Finish,
    ext.Set, emit, entryEvents, bind, Action.bind, pure, Action.pure, Span.Tracer,
    ext.DBType, ext.PeerAddress, ext.SpanKind, ext.SpanKindEnum, readOptions, pipelineEntry, bracket]

theorem silent_processEntry {σ : Type} (H : ProcessHook σ) (hH : OwnSpansOnly H) (P : Span)
    (o : Options) (cmd : Cmder) (hist : List Event) (st : Memory σ) (t : Tracer) :
    Silent (H cmd (hist ++ processEntry P o cmd hist) st).events ⟨t, nextSpanId hist⟩ := by
  apply silent_hook H hH
  simp [processEntry, nextSpanId_append_entry]

theorem silent_pipelineEntry {σ : Type} (H : PipelineHook σ) (hH : OwnSpansOnly H) (P : Span)
    (o : Options) (cmds : List Cmder) (hist : List Event) (st : Memory σ) (t : Tracer) :
    Silent (H cmds (hist ++ pipelineEntry P o cmds hist) st).events ⟨t, nextSpanId hist⟩ := by
  apply silent_hook H hH
  simp [pipelineEntry, nextSpanId_append_entry]

theorem quietHook_own {σ α : Type} : OwnSpansOnly (quietHook : α → Action σ Completion) := by
  intro a hist st e s he
  simp [quietHook] at he

theorem failingHook_own {σ α : Type} : OwnSpansOnly (failingHook : α → Action σ Completion) := by
  intro a hist st e s he
  simp [failingHook] at he

theorem process_own {σ : Type} (P : Span) (opts : OptionsRef) (H : ProcessHook σ)
    (hH : OwnSpansOnly H) : OwnSpansOnly (process P opts H) := by
  intro cmd hist st e s he hes
  rw [process_run] at he
  simp only [bracket, List.mem_append] at he
  rcases he with (he | he) | he
  · simp only [entryEvents, List.mem_cons, List.mem_singleton, List.not_mem_nil, or_false] at he
    rcases he with h | h | h | h | h | h <;> subst h <;> simp [Event.span?] at hes <;>
      subst hes <;> simp
  · have h := hH _ _ _ e s he hes
    have h2 : nextSpanId hist ≤ nextSpanId (hist ++ processEntry P (st.options opts) cmd hist) := by
      simp [processEntry, nextSpanId_append_entry]
    omega
  · simp only [List.mem_cons, List.mem_singleton, List.not_mem_nil, or_false] at he
    rcases he with h | h <;> subst h <;> simp [Event.span?] at hes
    subst hes
    simp

/-! ## The names of a batch -/

theorem fillDbMethods_spec (filled : List String) (cmds : List Cmder) :
    fillDbMethods (filled ++ List.replicate cmds.length "") filled.length cmds
      = filled ++ cmds.map Cmder.Name := by
  induction cmds generalizing filled with
  | nil => simp [fillDbMethods]
  | cons c cs ih =>
    have h := ih (filled ++ [c.Name])
    simp only [List.length_append, List.length_singleton, List.append_assoc,
      List.singleton_append] at h
    simp [fillDbMethods, List.replicate_succ, formatCommandAsDbMethod, h]

theorem fillDbMethods_names (cmds : List Cmder) :
    fillDbMethods (List.replicate cmds.length "") 0 cmds = cmds.map Cmder.Name := by
  simpa using fillDbMethods_spec [] cmds

/-! ## Wrapping a client -/

theorem WrapRedisClient_active {σ : Type} (ctx : Context) (P : Span) (C : ClientRef)
    (heap : Heap σ) (cl : Client σ) (hP : SpanFromContext ctx = some P)
    (hC : heap[C]? = some cl) :
    WrapRedisClient (some ctx) C heap =
      some (heap.length,
        heap ++ [{ opt := cl.opt, ctx := some ctx,
                   process := process P cl.opt cl.process,
                   processPipeline := processPipeline P cl.opt cl.processPipeline }]) := by
  simp [WrapRedisClient, hP, WithContext, hC, ClientOptions, WrapProcess, WrapProcessPipeline]

theorem foldl_join (sep : String) (l : List String) (hl : l ≠ []) (acc : String) :
    l.foldl (fun b s => b ++ sep ++ s) acc = acc ++ sep ++ joinedBy sep l := by
  induction l generalizing acc with
  | nil => exact absurd rfl hl
  | cons a l ih =>
    cases l with
    | nil => simp [joinedBy]
    | cons b rest =>
      rw [List.foldl_cons, ih (by simp), joinedBy]
      simp [String.append_assoc]

theorem stringsJoin_joinedBy (elems : List String) (sep : String) :
    stringsJoin elems sep = joinedBy sep elems := by
  match elems with
  | [] => simp [stringsJoin, joinedBy]
  | [e] => simp [stringsJoin, joinedBy]
  | e :: f :: rest =>
    simp only [stringsJoin, joinedBy]
    rw [foldl_join sep (f :: rest) (by simp)]

theorem formatCommandsAsDbMethods_joinedBy (cmds : List Cmder) :
    formatCommandsAsDbMethods cmds = joinedBy " -> " (cmds.map Cmder.Name) := by
  simp only [formatCommandsAsDbMethods, fillDbMethods_names, stringsJoin_joinedBy]

theorem viaWrapped_active {σ : Type} (ctx : Context) (P : Span) (C : ClientRef)
    (heap : Heap σ) (cl : Client σ) (cmd : Cmder) (hist : List Event) (st : Memory σ)
    (hP : SpanFromContext ctx = some P) (hC : heap[C]? = some cl) :
    viaWrapped (some ctx) C heap cmd hist st
      = some (process P cl.opt cl.process cmd hist st) := by
  simp [viaWrapped, WrapRedisClient_active ctx P C heap cl hP hC, ClientProcess]

theorem viaWrappedTwice_active {σ : Type} (ctx : Context) (P : Span) (C : ClientRef)
    (heap : Heap σ) (cl : Client σ) (cmd : Cmder) (hist : List Event) (st : Memory σ)
    (hP : SpanFromContext ctx = some P) (hC : heap[C]? = some cl) :
    viaWrappedTwice (some ctx) C heap cmd hist st
      = some (process P cl.opt (process P cl.opt cl.process) cmd hist st) := by
  simp only [viaWrappedTwice, WrapRedisClient_active ctx P C heap cl hP hC]
  rw [viaWrapped_active ctx P heap.length _ _ cmd hist st hP
    (List.getElem?_concat_length heap _)]

theorem bracket_taggedOnce (hist inner : List Event) (s : Span) (name : String) (P : Span)
    (o : Options) (dbMethod : String) (args : HookArgs) (r : Completion)
    (h1 : Silent hist s) (h2 : Silent inner s) :
    TaggedOnce (hist ++ bracket s name P o dbMethod args inner r) s o.Addr dbMethod := by
  obtain ⟨a1, a2, a3, a4⟩ := bracket_tagOf hist inner s name P o dbMethod args r h2
  obtain ⟨b1, b2, b3, b4⟩ := bracket_tagSets hist inner s name P o dbMethod args r h1 h2
  exact ⟨⟨a1, b1⟩, ⟨a2, b2⟩, ⟨a3, b3⟩, ⟨a4, b4⟩⟩

theorem taggedOnce_append_silent (a b : List Event) (s : Span) (addr dbMethod : String)
    (h : TaggedOnce a s addr dbMethod) (hb : Silent b s) :
    TaggedOnce (a ++ b) s addr dbMethod := by
  unfold TaggedOnce at h ⊢
  simp only [tagOf_append, tagSets_append, tagOf_silent b s _ hb, tagSets_silent b s _ hb,
    Option.none_or, Nat.add_zero]
  exact h

theorem spanRefs_append_silent (a b : List Event) (s : Span) (hb : Silent b s) :
    spanRefs (a ++ b) s = spanRefs a s := by
  rw [spanRefs_append, spanRefs_silent b s hb]
  cases spanRefs a s <;> rfl

/-! ## The claims -/

/-- C1. Pass-through law: the command interceptor enters the hook it wraps once, with the
command it was given and the store it was given, and its own value and store are those the
hook produced; the calls in its events are that one call followed by the calls the hook
made itself.  The pipeline interceptor does the same with the batch, the commands and
their order untouched. -/
theorem pass_through {σ : Type} (P : Span) (opts : OptionsRef) :
    (∀ (H : ProcessHook σ) (cmd : Cmder) (hist : List Event) (st : Memory σ),
      (process P opts H cmd hist st).val
        = (H cmd (hist ++ processEntry P (st.options opts) cmd hist) st).val
      ∧ (process P opts H cmd hist st).store
        = (H cmd (hist ++ processEntry P (st.options opts) cmd hist) st).store
      ∧ hookCalls (processEntry P (st.options opts) cmd hist) = [HookArgs.single cmd]
      ∧ hookCalls (process P opts H cmd hist st).events
        = HookArgs.single cmd
            :: hookCalls (H cmd (hist ++ processEntry P (st.options opts) cmd hist) st).events)
    ∧ (∀ (H : PipelineHook σ) (cmds : List Cmder) (hist : List Event) (st : Memory σ),
      (processPipeline P opts H cmds hist st).val
        = (H cmds (hist ++ pipelineEntry P (st.options opts) cmds hist) st).val
      ∧ (processPipeline P opts H cmds hist st).store
        = (H cmds (hist ++ pipelineEntry P (st.options opts) cmds hist) st).store
      ∧ hookCalls (pipelineEntry P (st.options opts) cmds hist) = [HookArgs.batch cmds]
      ∧ hookCalls (processPipeline P opts H cmds hist st).events
        = HookArgs.batch cmds
            :: hookCalls (H cmds (hist ++ pipelineEntry P (st.options opts) cmds hist) st).events) := by
  refine ⟨fun H cmd hist st => ?_, fun H cmds hist st => ?_⟩
  · rw [process_run]
    refine ⟨rfl, rfl, ?_, bracket_hookCalls _ _ _ _ _ _ _ _⟩
    simp [processEntry, entryEvents, hookCalls]
  · rw [processPipeline_run]
    refine ⟨rfl, rfl, ?_, bracket_hookCalls _ _ _ _ _ _ _ _⟩
    simp [pipelineEntry, entryEvents, hookCalls]

/-- C2. Context gate: with a nil context, or a context that carries no span,
`WrapRedisClient` returns the reference it was given and the heap it was given: no client
is allocated and no hook of any client changes. -/
theorem context_gate {σ : Type} (ctx : Option Context) (C : ClientRef) (heap : Heap σ)
    (h : ctx = none ∨ ∃ c, ctx = some c ∧ SpanFromContext c = none) :
    WrapRedisClient ctx C heap = some (C, heap) := by
  rcases h with h | ⟨c, h, hc⟩
  · subst h
    rfl
  · subst h
    simp [WrapRedisClient, hc]

theorem context_gate_witness :
    WrapRedisClient none 0 [demoClient] = some (0, [demoClient])
    ∧ WrapRedisClient (some bareContext) 0 [demoClient] = some (0, [demoClient]) :=
  ⟨context_gate none 0 [demoClient] (Or.inl rfl),
   context_gate (some bareContext) 0 [demoClient] (Or.inr ⟨bareContext, rfl, rfl⟩)⟩

/-- C10. Event order of one intercepted dispatch, single command and batch alike: the
start of the child span, the four tags on it, the call of the wrapped hook, whatever the
hook records, the completion of the hook, the finish of the span; nothing else. -/
theorem dispatch_event_order {σ : Type} (P : Span) (opts : OptionsRef) (hist : List Event)
    (st : Memory σ) :
    (∀ (H : ProcessHook σ) (cmd : Cmder), ∃ (s : Span) (entry : List Event),
      s = ⟨P.tracer, nextSpanId hist⟩
      ∧ entry = [Event.start s "redis-cmd" [ChildOf P.Context],
                 Event.setTag s "db.type" "redis",
                 Event.setTag s "peer.address" (st.options opts).Addr,
                 Event.setTag s "span.kind" "client",
                 Event.setTag s "db.method" cmd.Name,
                 Event.call (HookArgs.single cmd)]
      ∧ (process P opts H cmd hist st).events
          = entry ++ (H cmd (hist ++ entry) st).events
              ++ [Event.done (H cmd (hist ++ entry) st).val, Event.finish s])
    ∧ (∀ (H : PipelineHook σ) (cmds : List Cmder), ∃ (s : Span) (entry : List Event),
      s = ⟨P.tracer, nextSpanId hist⟩
      ∧ entry = [Event.start s "redis-pipeline-cmd" [ChildOf P.Context],
                 Event.setTag s "db.type" "redis",
                 Event.setTag s "peer.address" (st.options opts).Addr,
                 Event.setTag s "span.kind" "client",
                 Event.setTag s "db.method" (formatCommandsAsDbMethods cmds),
                 Event.call (HookArgs.batch cmds)]
      ∧ (processPipeline P opts H cmds hist st).events
          = entry ++ (H cmds (hist ++ entry) st).events
              ++ [Event.done (H cmds (hist ++ entry) st).val, Event.finish s]) := by
  refine ⟨fun H cmd => ⟨_, _, rfl, rfl, ?_⟩, fun H cmds => ⟨_, _, rfl, rfl, ?_⟩⟩
  · rw [process_run]
    rfl
  · rw [processPipeline_run]
    rfl

/-- C6, as the code has it. The span the pipeline interceptor starts is named
"redis-pipeline-cmd", whatever the batch holds. -/
theorem pipeline_span_name {σ : Type} (P : Span) (opts : OptionsRef) (H : PipelineHook σ)
    (cmds : List Cmder) (hist : List Event) (st : Memory σ) :
    (processPipeline P opts H cmds hist st).events.head?
      = some (Event.start ⟨P.tracer, nextSpanId hist⟩ "redis-pipeline-cmd" [ChildOf P.Context])
    ∧ spanName (hist ++ (processPipeline P opts H cmds hist st).events)
        ⟨P.tracer, nextSpanId hist⟩ = some "redis-pipeline-cmd" := by
  rw [processPipeline_run]
  refine ⟨?_, bracket_spanName _ _ _ _ _ _ _ _ _ (silent_history hist P.tracer)⟩
  simp [bracket, entryEvents]

/-- C6, as the claim has it, fails: on the empty batch the span of the pipeline interceptor
is named "redis-pipeline-cmd", not "pipeline dispatch". -/
theorem pipeline_span_name_not_dispatch :
    spanName (demoHistory
        ++ (processPipeline demoParent 0 quietHook [] demoHistory demoMemory).events)
      ⟨1, 1⟩ = some "redis-pipeline-cmd"
    ∧ spanName (demoHistory
        ++ (processPipeline demoParent 0 quietHook [] demoHistory demoMemory).events)
      ⟨1, 1⟩ ≠ some "pipeline dispatch" := by
  decide

/-- C3. A command dispatched through the handle `WrapRedisClient` returns starts a span as
a child of the context of the parent span, and after the call that span carries the tags
db.type = "redis", peer.address = the address in the options of the client,
span.kind = "client" and db.method = the name of the command, whatever the command and
whatever the hook of the client returns. -/
theorem command_span_tags {σ : Type} (ctx : Context) (P : Span) (C : ClientRef) (heap : Heap σ)
    (cl : Client σ) (cmd : Cmder) (hist : List Event) (st : Memory σ)
    (hP : SpanFromContext ctx = some P) (hC : heap[C]? = some cl)
    (hH : OwnSpansOnly cl.process) :
    ∃ out, viaWrapped (some ctx) C heap cmd hist st = some out
      ∧ out.events.head?
          = some (Event.start ⟨P.tracer, nextSpanId hist⟩ "redis-cmd" [ChildOf P.Context])
      ∧ spanRefs (hist ++ out.events) ⟨P.tracer, nextSpanId hist⟩ = some [ChildOf P.Context]
      ∧ tagOf (hist ++ out.events) ⟨P.tracer, nextSpanId hist⟩ "db.type" = some "redis"
      ∧ tagOf (hist ++ out.events) ⟨P.tracer, nextSpanId hist⟩ "peer.address"
          = some (st.options cl.opt).Addr
      ∧ tagOf (hist ++ out.events) ⟨P.tracer, nextSpanId hist⟩ "span.kind" = some "client"
      ∧ tagOf (hist ++ out.events) ⟨P.tracer, nextSpanId hist⟩ "db.method"
          = some cmd.Name := by
  refine ⟨_, viaWrapped_active ctx P C heap cl cmd hist st hP hC, ?_⟩
  rw [process_run]
  refine ⟨by simp [bracket, entryEvents],
    bracket_spanRefs _ _ _ _ _ _ _ _ _ (silent_history hist P.tracer),
    bracket_tagOf _ _ _ _ _ _ _ _ _ (silent_processEntry _ hH P _ cmd hist st P.tracer)⟩

theorem command_span_tags_witness :
    SpanFromContext demoContext = some demoParent
    ∧ [downClient][0]? = some downClient
    ∧ ∃ out, viaWrapped (some demoContext) 0 [downClient] demoGet demoHistory demoMemory = some out
      ∧ out.events.head?
          = some (Event.start ⟨1, 1⟩ "redis-cmd" [ChildOf demoParent.Context])
      ∧ spanRefs (demoHistory ++ out.events) ⟨1, 1⟩ = some [ChildOf demoParent.Context]
      ∧ tagOf (demoHistory ++ out.events) ⟨1, 1⟩ "db.type" = some "redis"
      ∧ tagOf (demoHistory ++ out.events) ⟨1, 1⟩ "peer.address" = some "localhost:6379"
      ∧ tagOf (demoHistory ++ out.events) ⟨1, 1⟩ "span.kind" = some "client"
      ∧ tagOf (demoHistory ++ out.events) ⟨1, 1⟩ "db.method" = some "GET" :=
  ⟨rfl, rfl, command_span_tags demoContext demoParent 0 [downClient] downClient demoGet
    demoHistory demoMemory rfl rfl failingHook_own⟩

/-- C4. The db.method string of a batch is the names of its commands, each one, in
submission order, joined by " -> ": the empty batch gives the empty string, a batch of one
gives the name alone; and it is the value of the db.method tag of the span of the batch. -/
theorem batch_db_method {σ : Type} (P : Span) (opts : OptionsRef) (H : PipelineHook σ)
    (cmds : List Cmder) (hist : List Event) (st : Memory σ) (hH : OwnSpansOnly H) :
    fillDbMethods (List.replicate cmds.length "") 0 cmds = cmds.map Cmder.Name
    ∧ formatCommandsAsDbMethods cmds = joinedBy " -> " (cmds.map Cmder.Name)
    ∧ formatCommandsAsDbMethods [] = ""
    ∧ (∀ cmd : Cmder, formatCommandsAsDbMethods [cmd] = cmd.Name)
    ∧ tagOf (hist ++ (processPipeline P opts H cmds hist st).events)
        ⟨P.tracer, nextSpanId hist⟩ "db.method" = some (formatCommandsAsDbMethods cmds) := by
  refine ⟨fillDbMethods_names cmds, formatCommandsAsDbMethods_joinedBy cmds, by decide,
    fun cmd => by simp [formatCommandsAsDbMethods_joinedBy, joinedBy], ?_⟩
  rw [processPipeline_run]
  exact (bracket_tagOf _ _ _ _ _ _ _ _ _
    (silent_pipelineEntry _ hH P _ cmds hist st P.tracer)).2.2.2

theorem batch_db_method_witness :
    formatCommandsAsDbMethods demoBatch = "SET -> EXPIRE -> GET"
    ∧ tagOf (demoHistory
          ++ (processPipeline demoParent 0 quietHook demoBatch demoHistory demoMemory).events)
        ⟨1, 1⟩ "db.method" = some "SET -> EXPIRE -> GET" :=
  ⟨by decide,
   (batch_db_method demoParent 0 quietHook demoBatch demoHistory demoMemory
      quietHook_own).2.2.2.2⟩

/-- C5. Span lifecycle: an intercepted dispatch, of one command or of a batch, starts one
span beyond those the hook starts itself and finishes that span, after the hook, beyond
those the hook finishes itself; in the whole history that span is started once and
finished once, whatever the hook returns and however many commands the batch holds. -/
theorem span_lifecycle {σ : Type} (P : Span) (opts : OptionsRef) (H : ProcessHook σ)
    (G : PipelineHook σ) (cmd : Cmder) (cmds : List Cmder) (hist : List Event) (st : Memory σ)
    (hH : OwnSpansOnly H) (hG : OwnSpansOnly G) :
    (startedSpans (process P opts H cmd hist st).events
        = ⟨P.tracer, nextSpanId hist⟩
            :: startedSpans (H cmd (hist ++ processEntry P (st.options opts) cmd hist) st).events
      ∧ finishedSpans (process P opts H cmd hist st).events
        = finishedSpans (H cmd (hist ++ processEntry P (st.options opts) cmd hist) st).events
            ++ [⟨P.tracer, nextSpanId hist⟩]
      ∧ (startedSpans (hist ++ (process P opts H cmd hist st).events)).count
          ⟨P.tracer, nextSpanId hist⟩ = 1
      ∧ (finishedSpans (hist ++ (process P opts H cmd hist st).events)).count
          ⟨P.tracer, nextSpanId hist⟩ = 1)
    ∧ (startedSpans (processPipeline P opts G cmds hist st).events
        = ⟨P.tracer, nextSpanId hist⟩
            :: startedSpans (G cmds (hist ++ pipelineEntry P (st.options opts) cmds hist) st).events
      ∧ finishedSpans (processPipeline P opts G cmds hist st).events
        = finishedSpans (G cmds (hist ++ pipelineEntry P (st.options opts) cmds hist) st).events
            ++ [⟨P.tracer, nextSpanId hist⟩]
      ∧ (startedSpans (hist ++ (processPipeline P opts G cmds hist st).events)).count
          ⟨P.tracer, nextSpanId hist⟩ = 1
      ∧ (finishedSpans (hist ++ (processPipeline P opts G cmds hist st).events)).count
          ⟨P.tracer, nextSpanId hist⟩ = 1) := by
  constructor
  · rw [process_run]
    exact ⟨bracket_startedSpans _ _ _ _ _ _ _ _, bracket_finishedSpans _ _ _ _ _ _ _ _,
      bracket_started _ _ _ _ _ _ _ _ _ (silent_history hist P.tracer)
        (silent_processEntry _ hH P _ cmd hist st P.tracer),
      bracket_finished _ _ _ _ _ _ _ _ _ (silent_history hist P.tracer)
        (silent_processEntry _ hH P _ cmd hist st P.tracer)⟩
  · rw [processPipeline_run]
    exact ⟨bracket_startedSpans _ _ _ _ _ _ _ _, bracket_finishedSpans _ _ _ _ _ _ _ _,
      bracket_started _ _ _ _ _ _ _ _ _ (silent_history hist P.tracer)
        (silent_pipelineEntry _ hG P _ cmds hist st P.tracer),
      bracket_finished _ _ _ _ _ _ _ _ _ (silent_history hist P.tracer)
        (silent_pipelineEntry _ hG P _ cmds hist st P.tracer)⟩

theorem span_lifecycle_witness :
    (startedSpans (process demoParent 0 failingHook demoGet demoHistory demoMemory).events
        = [⟨1, 1⟩]
      ∧ finishedSpans (process demoParent 0 failingHook demoGet demoHistory demoMemory).events
        = [⟨1, 1⟩])
    ∧ (startedSpans
          (processPipeline demoParent 0 quietHook demoBatch demoHistory demoMemory).events
        = [⟨1, 1⟩]
      ∧ finishedSpans
          (processPipeline demoParent 0 quietHook demoBatch demoHistory demoMemory).events
        = [⟨1, 1⟩]) :=
  ⟨⟨(span_lifecycle demoParent 0 failingHook quietHook demoGet demoBatch demoHistory demoMemory
        failingHook_own quietHook_own).1.1,
    (span_lifecycle demoParent 0 failingHook quietHook demoGet demoBatch demoHistory demoMemory
        failingHook_own quietHook_own).1.2.1⟩,
   ⟨(span_lifecycle demoParent 0 failingHook quietHook demoGet demoBatch demoHistory demoMemory
        failingHook_own quietHook_own).2.1,
    (span_lifecycle demoParent 0 failingHook quietHook demoGet demoBatch demoHistory demoMemory
        failingHook_own quietHook_own).2.2.1⟩⟩

/-- C8. Cloning: with a context that carries a span, `WrapRedisClient` returns a reference
that is new, not the one it was given; every client that existed keeps its record, so the
hooks of the client given are what they were and a dispatch through it runs as before;
the two interceptors are the hooks of the new client only. -/
theorem cloning {σ : Type} (ctx : Context) (P : Span) (C : ClientRef) (heap : Heap σ)
    (cl : Client σ) (hP : SpanFromContext ctx = some P) (hC : heap[C]? = some cl) :
    ∃ (C2 : ClientRef) (heap2 : Heap σ),
      WrapRedisClient (some ctx) C heap = some (C2, heap2)
      ∧ C2 ≠ C
      ∧ heap[C2]? = none
      ∧ heap2[C]? = some cl
      ∧ (∀ r : ClientRef, r < heap.length → heap2[r]? = heap[r]?)
      ∧ (∀ cmd : Cmder, ClientProcess C heap2 cmd = some (cl.process cmd))
      ∧ (∀ cmds : List Cmder,
          ClientProcessPipeline C heap2 cmds = some (cl.processPipeline cmds))
      ∧ heap2[C2]? = some { opt := cl.opt, ctx := some ctx,
                            process := process P cl.opt cl.process,
                            processPipeline := processPipeline P cl.opt cl.processPipeline }
      ∧ heap2.length = heap.length + 1 := by
  have hlt : C < heap.length := by
    rcases List.getElem?_eq_some_iff.mp hC with ⟨h, _⟩
    exact h
  have hkeep : ∀ r : ClientRef, r < heap.length →
      (heap ++ [{ opt := cl.opt, ctx := some ctx, process := process P cl.opt cl.process,
                  processPipeline := processPipeline P cl.opt cl.processPipeline }])[r]?
        = heap[r]? := fun r hr => List.getElem?_append_left hr
  refine ⟨_, _, WrapRedisClient_active ctx P C heap cl hP hC, ?_, ?_, ?_, hkeep, ?_, ?_, ?_, ?_⟩
  · exact Nat.ne_of_gt hlt
  · simp
  · rw [hkeep C hlt, hC]
  · intro cmd
    simp [ClientProcess, hkeep C hlt, hC]
  · intro cmds
    simp [ClientProcessPipeline, hkeep C hlt, hC]
  · exact List.getElem?_concat_length heap _
  · simp

theorem cloning_witness :
    SpanFromContext demoContext = some demoParent
    ∧ [demoClient][0]? = some demoClient
    ∧ ∃ (C2 : ClientRef) (heap2 : Heap Unit),
      WrapRedisClient (some demoContext) 0 [demoClient] = some (C2, heap2)
      ∧ C2 ≠ 0
      ∧ [demoClient][C2]? = none
      ∧ heap2[0]? = some demoClient
      ∧ (∀ r : ClientRef, r < 1 → heap2[r]? = [demoClient][r]?)
      ∧ (∀ cmd : Cmder, ClientProcess 0 heap2 cmd = some (quietHook cmd))
      ∧ (∀ cmds : List Cmder, ClientProcessPipeline 0 heap2 cmds = some (quietHook cmds))
      ∧ heap2[C2]? = some { opt := 0, ctx := some demoContext,
                            process := process demoParent 0 quietHook,
                            processPipeline := processPipeline demoParent 0 quietHook }
      ∧ heap2.length = 2 :=
  ⟨rfl, rfl, cloning demoContext demoParent 0 [demoClient] demoClient rfl rfl⟩

/-- C9, as the code has it. The client `WrapRedisClient` returns holds the options pointer of
the client given, so the two share one configuration, and it is bound to the context given;
the span of every dispatch through it, of one command or of a batch, carries as
peer.address the address found behind that pointer at the time of the dispatch. -/
theorem wrapped_configuration {σ : Type} (ctx : Context) (P : Span) (C : ClientRef)
    (heap : Heap σ) (cl : Client σ) (hP : SpanFromContext ctx = some P)
    (hC : heap[C]? = some cl) (hH : OwnSpansOnly cl.process)
    (hG : OwnSpansOnly cl.processPipeline) :
    ∃ (C2 : ClientRef) (heap2 : Heap σ) (cl2 : Client σ),
      WrapRedisClient (some ctx) C heap = some (C2, heap2)
      ∧ heap2[C2]? = some cl2
      ∧ cl2.opt = cl.opt
      ∧ ClientOptions C2 heap2 = ClientOptions C heap
      ∧ ClientOptions C heap2 = ClientOptions C heap
      ∧ cl2.ctx = some ctx
      ∧ (∀ (cmd : Cmder) (hist : List Event) (st : Memory σ),
          (cl2.process cmd hist st).events.head?
            = some (Event.start ⟨P.tracer, nextSpanId hist⟩ "redis-cmd" [ChildOf P.Context])
          ∧ tagOf (hist ++ (cl2.process cmd hist st).events) ⟨P.tracer, nextSpanId hist⟩
              "peer.address" = some (st.options cl.opt).Addr)
      ∧ (∀ (cmds : List Cmder) (hist : List Event) (st : Memory σ),
          (cl2.processPipeline cmds hist st).events.head?
            = some (Event.start ⟨P.tracer, nextSpanId hist⟩ "redis-pipeline-cmd"
                [ChildOf P.Context])
          ∧ tagOf (hist ++ (cl2.processPipeline cmds hist st).events)
              ⟨P.tracer, nextSpanId hist⟩ "peer.address" = some (st.options cl.opt).Addr) := by
  have hlt : C < heap.length := by
    rcases List.getElem?_eq_some_iff.mp hC with ⟨h, _⟩
    exact h
  refine ⟨_, _, _, WrapRedisClient_active ctx P C heap cl hP hC,
    List.getElem?_concat_length heap _, rfl, ?_, ?_, rfl, ?_, ?_⟩
  · simp [ClientOptions, hC]
  · simp [ClientOptions, List.getElem?_append_left hlt]
  · intro cmd hist st
    simp only [process_run]
    exact ⟨by simp [bracket, entryEvents],
      (bracket_tagOf _ _ _ _ _ _ _ _ _
        (silent_processEntry _ hH P _ cmd hist st P.tracer)).2.1⟩
  · intro cmds hist st
    simp only [processPipeline_run]
    exact ⟨by simp [bracket, entryEvents],
      (bracket_tagOf _ _ _ _ _ _ _ _ _
        (silent_pipelineEntry _ hG P _ cmds hist st P.tracer)).2.1⟩

theorem wrapped_configuration_witness :
    SpanFromContext demoContext = some demoParent
    ∧ [downClient][0]? = some downClient
    ∧ ∃ (C2 : ClientRef) (heap2 : Heap Unit) (cl2 : Client Unit),
      WrapRedisClient (some demoContext) 0 [downClient] = some (C2, heap2)
      ∧ heap2[C2]? = some cl2
      ∧ cl2.opt = 0
      ∧ ClientOptions C2 heap2 = ClientOptions 0 [downClient]
      ∧ ClientOptions 0 heap2 = ClientOptions 0 [downClient]
      ∧ cl2.ctx = some demoContext
      ∧ (∀ (cmd : Cmder) (hist : List Event) (st : Memory Unit),
          (cl2.process cmd hist st).events.head?
            = some (Event.start ⟨1, nextSpanId hist⟩ "redis-cmd" [ChildOf demoParent.Context])
          ∧ tagOf (hist ++ (cl2.process cmd hist st).events) ⟨1, nextSpanId hist⟩
              "peer.address" = some (st.options 0).Addr)
      ∧ (∀ (cmds : List Cmder) (hist : List Event) (st : Memory Unit),
          (cl2.processPipeline cmds hist st).events.head?
            = some (Event.start ⟨1, nextSpanId hist⟩ "redis-pipeline-cmd"
                [ChildOf demoParent.Context])
          ∧ tagOf (hist ++ (cl2.processPipeline cmds hist st).events)
              ⟨1, nextSpanId hist⟩ "peer.address" = some (st.options 0).Addr) :=
  ⟨rfl, rfl, wrapped_configuration demoContext demoParent 0 [downClient] downClient rfl rfl
    failingHook_own failingHook_own⟩

/-- C9, as the claim has it, fails: the client is wrapped while its options hold the address
"localhost:6379", the address behind the options pointer is then set to "moved:6380", and
the span of the next dispatch through the handle carries peer.address "moved:6380", not
the address the options held when the handle was wrapped. -/
theorem wrapped_address_follows_options :
    (demoMemory.options 0).Addr = "localhost:6379"
    ∧ ClientOptions 0 [demoClient] = some 0
    ∧ (viaWrappedLater (some demoContext) 0 [demoClient] (setAddr 0 "moved:6380") demoGet
          demoHistory demoMemory).map
        (fun out => tagOf (demoHistory ++ out.events) ⟨1, 1⟩ "peer.address")
        = some (some "moved:6380")
    ∧ (viaWrappedLater (some demoContext) 0 [demoClient] (setAddr 0 "moved:6380") demoGet
          demoHistory demoMemory).map
        (fun out => tagOf (demoHistory ++ out.events) ⟨1, 1⟩ "peer.address")
        ≠ some (some (demoMemory.options 0).Addr) := by
  decide

/-- C7, as the code has it. A command dispatched through a handle wrapped twice with the same
context starts two spans, each one as a child of the context of the parent span of the
context; the span of the inner interceptor is started after and finished before the span of
the outer one; each of the two carries its own four tags, each set once; the value and the
store are those of the hook of the client. -/
theorem twice_wrapped_siblings {σ : Type} (ctx : Context) (P : Span) (C : ClientRef)
    (heap : Heap σ) (cl : Client σ) (cmd : Cmder) (hist : List Event) (st : Memory σ)
    (hP : SpanFromContext ctx = some P) (hC : heap[C]? = some cl)
    (hH : OwnSpansOnly cl.process) :
    ∃ out, viaWrappedTwice (some ctx) C heap cmd hist st = some out
      ∧ out.val = (cl.process cmd (hist ++ processEntry P (st.options cl.opt) cmd hist
          ++ processEntry P (st.options cl.opt) cmd
              (hist ++ processEntry P (st.options cl.opt) cmd hist)) st).val
      ∧ out.store = (cl.process cmd (hist ++ processEntry P (st.options cl.opt) cmd hist
          ++ processEntry P (st.options cl.opt) cmd
              (hist ++ processEntry P (st.options cl.opt) cmd hist)) st).store
      ∧ startedSpans out.events
          = ⟨P.tracer, nextSpanId hist⟩ :: ⟨P.tracer, nextSpanId hist + 1⟩
            :: startedSpans (cl.process cmd (hist ++ processEntry P (st.options cl.opt) cmd hist
              ++ processEntry P (st.options cl.opt) cmd
                  (hist ++ processEntry P (st.options cl.opt) cmd hist)) st).events
      ∧ finishedSpans out.events
          = finishedSpans (cl.process cmd (hist ++ processEntry P (st.options cl.opt) cmd hist
              ++ processEntry P (st.options cl.opt) cmd
                  (hist ++ processEntry P (st.options cl.opt) cmd hist)) st).events
            ++ [⟨P.tracer, nextSpanId hist + 1⟩, ⟨P.tracer, nextSpanId hist⟩]
      ∧ spanRefs (hist ++ out.events) ⟨P.tracer, nextSpanId hist⟩ = some [ChildOf P.Context]
      ∧ spanRefs (hist ++ out.events) ⟨P.tracer, nextSpanId hist + 1⟩
          = some [ChildOf P.Context]
      ∧ TaggedOnce (hist ++ out.events) ⟨P.tracer, nextSpanId hist⟩ (st.options cl.opt).Addr cmd.Name
      ∧ TaggedOnce (hist ++ out.events) ⟨P.tracer, nextSpanId hist + 1⟩ (st.options cl.opt).Addr
          cmd.Name := by
  refine ⟨_, viaWrappedTwice_active ctx P C heap cl cmd hist st hP hC, ?_⟩
  have hn : nextSpanId (hist ++ processEntry P (st.options cl.opt) cmd hist) = nextSpanId hist + 1 :=
    nextSpanId_append_entry hist P.tracer "redis-cmd" P (st.options cl.opt) cmd.Name (HookArgs.single cmd)
  have hinner : Silent (process P cl.opt cl.process cmd
      (hist ++ processEntry P (st.options cl.opt) cmd hist) st).events ⟨P.tracer, nextSpanId hist⟩ :=
    silent_processEntry _ (process_own P cl.opt cl.process hH) P _ cmd hist st P.tracer
  have hho : Silent (cl.process cmd (hist ++ processEntry P (st.options cl.opt) cmd hist
      ++ processEntry P (st.options cl.opt) cmd
          (hist ++ processEntry P (st.options cl.opt) cmd hist)) st).events
      ⟨P.tracer, nextSpanId hist + 1⟩ := by
    have h := silent_processEntry _ hH P (st.options cl.opt) cmd (hist ++ processEntry P (st.options cl.opt) cmd hist) st
      P.tracer
    rw [hn] at h
    exact h
  have hh1 : Silent (hist ++ processEntry P (st.options cl.opt) cmd hist) ⟨P.tracer, nextSpanId hist + 1⟩ := by
    have h := silent_history (hist ++ processEntry P (st.options cl.opt) cmd hist) P.tracer
    rw [hn] at h
    exact h
  have hpost : ∀ r : Completion, Silent [Event.done r, Event.finish ⟨P.tracer, nextSpanId hist⟩]
      ⟨P.tracer, nextSpanId hist + 1⟩ := by
    intro r e he
    simp only [List.mem_cons, List.mem_singleton, List.not_mem_nil, or_false] at he
    rcases he with h | h <;> subst h <;> simp [Event.span?]
  have hlog : ∀ (inner : List Event) (r : Completion),
      hist ++ bracket ⟨P.tracer, nextSpanId hist⟩ "redis-cmd" P (st.options cl.opt) cmd.Name
        (HookArgs.single cmd) inner r
      = (hist ++ processEntry P (st.options cl.opt) cmd hist ++ inner)
          ++ [Event.done r, Event.finish ⟨P.tracer, nextSpanId hist⟩] := by
    intro inner r
    simp only [bracket, processEntry, List.append_assoc]
  rw [process_run P cl.opt cl.process, hn] at hinner
  rw [process_run P cl.opt (process P cl.opt cl.process), process_run P cl.opt cl.process, hn]
  refine ⟨rfl, rfl, ?_, ?_, ?_, ?_, ?_, ?_⟩
  · rw [bracket_startedSpans, bracket_startedSpans]
  · rw [bracket_finishedSpans, bracket_finishedSpans]
    simp
  · exact bracket_spanRefs _ _ _ _ _ _ _ _ _ (silent_history hist P.tracer)
  · rw [hlog, spanRefs_append_silent _ _ _ (hpost _)]
    exact bracket_spanRefs _ _ _ _ _ _ _ _ _ hh1
  · exact bracket_taggedOnce _ _ _ _ _ _ _ _ _ (silent_history hist P.tracer) hinner
  · rw [hlog]
    exact taggedOnce_append_silent _ _ _ _ _
      (bracket_taggedOnce _ _ _ _ _ _ _ _ _ hh1 hho) (hpost _)

theorem twice_wrapped_siblings_witness :
    SpanFromContext demoContext = some demoParent
    ∧ [demoClient][0]? = some demoClient
    ∧ ∃ out, viaWrappedTwice (some demoContext) 0 [demoClient] demoGet demoHistory demoMemory = some out
      ∧ out.val = Completion.returned none
      ∧ startedSpans out.events = [⟨1, 1⟩, ⟨1, 2⟩]
      ∧ finishedSpans out.events = [⟨1, 2⟩, ⟨1, 1⟩]
      ∧ spanRefs (demoHistory ++ out.events) ⟨1, 1⟩ = some [ChildOf demoParent.Context]
      ∧ spanRefs (demoHistory ++ out.events) ⟨1, 2⟩ = some [ChildOf demoParent.Context]
      ∧ TaggedOnce (demoHistory ++ out.events) ⟨1, 1⟩ "localhost:6379" "GET"
      ∧ TaggedOnce (demoHistory ++ out.events) ⟨1, 2⟩ "localhost:6379" "GET" := by
  obtain ⟨out, h0, h1, _, h3, h4, h5, h6, h7, h8⟩ :=
    twice_wrapped_siblings demoContext demoParent 0 [demoClient] demoClient demoGet demoHistory demoMemory
      rfl rfl quietHook_own
  exact ⟨rfl, rfl, out, h0, h1, h3, h4, h5, h6, h7, h8⟩

/-- C7, as the claim has it, fails: through a handle wrapped twice, the span of the inner
interceptor, span 2, is started as a child of the parent span of the context, span 0, and
not as a child of the span of the outer interceptor, span 1. -/
theorem twice_wrapped_not_nested :
    (viaWrappedTwice (some demoContext) 0 [demoClient] demoGet demoHistory demoMemory).map
        (fun out => startedSpans out.events) = some [⟨1, 1⟩, ⟨1, 2⟩]
    ∧ (viaWrappedTwice (some demoContext) 0 [demoClient] demoGet demoHistory demoMemory).map
        (fun out => spanRefs (demoHistory ++ out.events) ⟨1, 2⟩)
        = some (some [ChildOf (SpanContext.mk 0)])
    ∧ (viaWrappedTwice (some demoContext) 0 [demoClient] demoGet demoHistory demoMemory).map
        (fun out => spanRefs (demoHistory ++ out.events) ⟨1, 2⟩)
        ≠ some (some [ChildOf (Span.Context ⟨1, 1⟩)]) := by
  decide

end Otredis
